import Mathlib

/-!
Shallow embedding of `src/models/models.py`: linear and logistic regression
estimators with a `fit`/`predict` interface, the shared numeric helpers
`softmax` and `one_hot`, and an explicit heap model for the aliasing
behaviour of the NumPy arrays involved.

Conventions of the embedding:
* NumPy 2-D arrays of shape `(n, m)` become `Matrix (Fin n) (Fin m) α`.
  The linear-regression code is purely rational arithmetic and is embedded
  generically over a `Field`; the logistic-regression path uses `Real.exp`
  and is embedded over `ℝ`.
* Python exceptions become the `Except PyError` monad.  `assert` failures
  raise `PyError.assertionError`; reading an attribute that was never
  assigned raises `PyError.attributeError`; `np.linalg.inv` on a singular
  matrix raises `PyError.linAlgError`; an arbitrary failure of an external
  collaborator is `PyError.runtimeError`.
* The mutable `self.w` attribute is threaded explicitly: each method takes
  the current value of the attribute (`Option` — `none` is Python `None`
  for `LinearRegression`, and "attribute not set" for
  `LogisticRegression`, whose `__init__` never assigns `self.w`) and
  returns the new value together with the Python return value.
* The external optimizer collaborator is a record with a `run` field that
  also yields the `w_history` attribute readable after `run` returns.
-/

namespace Models

open Matrix

/-- Python run-time errors raised by the modelled code or its collaborators. -/
inductive PyError where
  | assertionError
  | attributeError
  | linAlgError
  | runtimeError
  deriving DecidableEq, Repr

/-- Number of columns of the design matrix after optional bias augmentation. -/
def biasDim : Bool → ℕ → ℕ
  | true, f => f + 1
  | false, f => f

/-- Bias augmentation: `np.concatenate([np.ones((n, 1)), X], axis=1)` when
`add_bias` is set, the identity otherwise.  This is the shared
`A = np.copy(X); if self.add_bias: A = np.concatenate(...)` block; the copy
itself is value-irrelevant here and is modelled at the heap level below. -/
def augment {α : Type} [One α] {n f : ℕ} :
    (b : Bool) → Matrix (Fin n) (Fin f) α → Matrix (Fin n) (Fin (biasDim b f)) α
  | true, X => Matrix.of fun i => Matrix.vecCons 1 (X i)
  | false, X => X

/-- Model of `np.linalg.inv`: raises `LinAlgError` on a singular matrix,
otherwise returns the inverse (`det⁻¹ • adjugate`, which is the true inverse
whenever the determinant is nonzero). -/
def np_linalg_inv {α : Type} [Field α] [DecidableEq α] {p : ℕ}
    (A : Matrix (Fin p) (Fin p) α) : Except PyError (Matrix (Fin p) (Fin p) α) :=
  if A.det = 0 then .error .linAlgError else .ok ((A.det)⁻¹ • A.adjugate)

/-- The external optimizer collaborator: `optimizer_class(**kwargs)` exposes
`run(gradient_fn, A, y, w0)`; after `run` returns, the attribute `w_history`
is readable.  `run` returns the final weights together with that history, or
raises. -/
structure Optimizer (n p q : ℕ) (α : Type) where
  run : (Matrix (Fin n) (Fin p) α → Matrix (Fin n) (Fin q) α →
           Matrix (Fin p) (Fin q) α → Matrix (Fin p) (Fin q) α) →
        Matrix (Fin n) (Fin p) α → Matrix (Fin n) (Fin q) α →
        Matrix (Fin p) (Fin q) α →
        Except PyError (Matrix (Fin p) (Fin q) α × List (Matrix (Fin p) (Fin q) α))

namespace LinearRegression

variable {α : Type} [Field α]

/-- `__init__` sets `self.w = None`. -/
def initW {p : ℕ} : Option (Matrix (Fin p) (Fin 1) α) := none

/-- `cost_fn`: `0.5 * np.sum((y - np.dot(X, w))**2)`. -/
def cost_fn {n p q : ℕ} (X : Matrix (Fin n) (Fin p) α)
    (y : Matrix (Fin n) (Fin q) α) (w : Matrix (Fin p) (Fin q) α) : α :=
  (1 / 2 : α) * ∑ i, ∑ k, (y i k - (X * w) i k) ^ 2

/-- `gradient`: `np.dot(X.transpose(), np.dot(X, w) - y) / X.shape[0]`. -/
def gradient {n p q : ℕ} (X : Matrix (Fin n) (Fin p) α)
    (y : Matrix (Fin n) (Fin q) α) (w : Matrix (Fin p) (Fin q) α) :
    Matrix (Fin p) (Fin q) α :=
  (Xᵀ * (X * w - y)).map fun v => v / (n : α)

/-- `analytic_fit`: `w = (XᵀX)⁻¹ Xᵀ y`, propagating the singular-matrix
failure of `np.linalg.inv`. -/
def analytic_fit [DecidableEq α] {n p q : ℕ} (X : Matrix (Fin n) (Fin p) α)
    (y : Matrix (Fin n) (Fin q) α) : Except PyError (Matrix (Fin p) (Fin q) α) := do
  let XTX := Xᵀ * X
  let XTX_inv ← np_linalg_inv XTX
  let XTX_inv_XT := XTX_inv * Xᵀ
  .ok (XTX_inv_XT * y)

/-- The value `fit` returns to its caller: the stored weights on the
analytic path, the optimizer's `w_history` on the gradient path. -/
inductive FitReturn (p : ℕ) (α : Type) where
  | weights : Matrix (Fin p) (Fin 1) α → FitReturn p α
  | history : List (Matrix (Fin p) (Fin 1) α) → FitReturn p α
  deriving DecidableEq

/-- `fit(self, X, y, analytic_fit=False, optimizer_class=None)`.  Takes the
current `self.w` and returns `(python result or exception, new self.w)`.
On the analytic path a singular-matrix failure propagates before `self.w`
is assigned; on the gradient path `self.w = np.zeros(...)` happens before
`optimizer.run`, so a failing run still leaves `self.w` set to zeros. -/
def fit [DecidableEq α] {n f : ℕ} (b : Bool)
    (selfW : Option (Matrix (Fin (biasDim b f)) (Fin 1) α))
    (X : Matrix (Fin n) (Fin f) α) (y : Matrix (Fin n) (Fin 1) α)
    (analytic : Bool) (optimizer_class : Option (Optimizer n (biasDim b f) 1 α)) :
    Except PyError (FitReturn (biasDim b f) α) ×
      Option (Matrix (Fin (biasDim b f)) (Fin 1) α) :=
  let A := augment b X
  if analytic then
    match analytic_fit A y with
    | .error e => (.error e, selfW)
    | .ok w => (.ok (.weights w), some w)
  else
    match optimizer_class with
    | none => (.error .assertionError, selfW)
    | some opt =>
      match opt.run gradient A y 0 with
      | .error e => (.error e, some 0)
      | .ok (wf, hist) => (.ok (.history hist), some wf)

/-- `predict(self, X, w=None)`: `assert self.w is not None` first (even when
an override `w` is supplied), then bias-augment and return `A·w` (override)
or `A·self.w`. -/
def predict {n f : ℕ} (b : Bool)
    (selfW : Option (Matrix (Fin (biasDim b f)) (Fin 1) α))
    (X : Matrix (Fin n) (Fin f) α)
    (w : Option (Matrix (Fin (biasDim b f)) (Fin 1) α)) :
    Except PyError (Matrix (Fin n) (Fin 1) α) :=
  match selfW with
  | none => .error .assertionError
  | some sw =>
    let A := augment b X
    match w with
    | some ww => .ok (A * ww)
    | none => .ok (A * sw)

end LinearRegression

/-- Row-wise maximum, `np.max(X, axis=1, keepdims=True)` (defined on
matrices with at least one column, as in NumPy). -/
noncomputable def rowMax {n m : ℕ} (X : Matrix (Fin n) (Fin (m + 1)) ℝ) (i : Fin n) : ℝ :=
  Finset.univ.sup' Finset.univ_nonempty (X i)

/-- The additive epsilon `1e-8` in the softmax denominator. -/
noncomputable def softeps : ℝ := 1 / 10 ^ 8

/-- `softmax(X)`: row-wise, with the row maximum subtracted before
exponentiation and `eps = 1e-8` added to the denominator sum. -/
noncomputable def softmax {n m : ℕ} (X : Matrix (Fin n) (Fin (m + 1)) ℝ) :
    Matrix (Fin n) (Fin (m + 1)) ℝ :=
  Matrix.of fun i j =>
    Real.exp (X i j - rowMax X i) /
      ((∑ k, Real.exp (X i k - rowMax X i)) + softeps)

/-- `np.argmax` over one row: the first (lowest) index attaining the row's
maximum value. -/
def npArgmax {m : ℕ} {α : Type} [LinearOrder α] (v : Fin (m + 1) → α) : Fin (m + 1) :=
  (Finset.univ.filter fun j => ∀ k, v k ≤ v j).min' (by
    obtain ⟨j, hj⟩ := Finite.exists_max v
    exact ⟨j, Finset.mem_filter.mpr ⟨Finset.mem_univ _, hj⟩⟩)

/-- `one_hot(y)`: `np.zeros(y.shape)` with, in each row, a `1` written at
that row's `argmax(axis=1)` position. -/
def one_hot {n m : ℕ} {α : Type} [LinearOrder α] [Zero α] [One α]
    (y : Matrix (Fin n) (Fin (m + 1)) α) : Matrix (Fin n) (Fin (m + 1)) α :=
  Matrix.of fun i j => if j = npArgmax (y i) then 1 else 0

namespace LogisticRegression

/-- `__init__` assigns only `add_bias`; the attribute `w` is not set
(`none` models the absent attribute). -/
def initW {p c : ℕ} : Option (Matrix (Fin p) (Fin (c + 1)) ℝ) := none

/-- `cost_fn`: `-trace(y zᵀ) + Σ (zbar + log Σ exp(z - zbar))` with
`z = Xw` and `zbar` the row maximum of `z`. -/
noncomputable def cost_fn {n p c : ℕ} (X : Matrix (Fin n) (Fin p) ℝ)
    (y : Matrix (Fin n) (Fin (c + 1)) ℝ) (w : Matrix (Fin p) (Fin (c + 1)) ℝ) : ℝ :=
  let z := X * w ;
  -Matrix.trace (y * zᵀ) +
    ∑ i, (rowMax z i + Real.log (∑ k, Real.exp (z i k - rowMax z i)))

/-- `gradient`: `np.dot(X.transpose(), softmax(np.dot(X, w)) - y) / y.shape[0]`. -/
noncomputable def gradient {n p c : ℕ} (X : Matrix (Fin n) (Fin p) ℝ)
    (y : Matrix (Fin n) (Fin (c + 1)) ℝ) (w : Matrix (Fin p) (Fin (c + 1)) ℝ) :
    Matrix (Fin p) (Fin (c + 1)) ℝ :=
  (Xᵀ * (softmax (X * w) - y)).map fun v => v / (n : ℝ)

/-- `fit(self, X, y, optimizer_class)`: bias-augment, set
`self.w = np.zeros((A.shape[1], y.shape[1]))`, run the optimizer, store the
final weights, return the optimizer's `w_history`.  A failing run still
leaves `self.w` set to zeros. -/
noncomputable def fit {n f c : ℕ} (b : Bool)
    (X : Matrix (Fin n) (Fin f) ℝ) (y : Matrix (Fin n) (Fin (c + 1)) ℝ)
    (optimizer_class : Optimizer n (biasDim b f) (c + 1) ℝ) :
    Except PyError (List (Matrix (Fin (biasDim b f)) (Fin (c + 1)) ℝ)) ×
      Option (Matrix (Fin (biasDim b f)) (Fin (c + 1)) ℝ) :=
  let A := augment b X
  let w0 : Matrix (Fin (biasDim b f)) (Fin (c + 1)) ℝ := 0
  match optimizer_class.run gradient A y w0 with
  | .error e => (.error e, some w0)
  | .ok (wf, hist) => (.ok hist, some wf)

/-- `predict(self, X, w=None)`: bias-augment, then
`one_hot(softmax(np.dot(A, w)))` with the override `w` if given, else with
`self.w` — reading `self.w` on a never-fitted instance raises
`AttributeError` (there is no assertion guard in this class). -/
noncomputable def predict {n f c : ℕ} (b : Bool)
    (selfW : Option (Matrix (Fin (biasDim b f)) (Fin (c + 1)) ℝ))
    (X : Matrix (Fin n) (Fin f) ℝ)
    (w : Option (Matrix (Fin (biasDim b f)) (Fin (c + 1)) ℝ)) :
    Except PyError (Matrix (Fin n) (Fin (c + 1)) ℝ) :=
  let A := augment b X
  match w with
  | some ww => .ok (one_hot (softmax (A * ww)))
  | none =>
    match selfW with
    | none => .error .attributeError
    | some sw => .ok (one_hot (softmax (A * sw)))

end LogisticRegression

/-!
Heap model.  NumPy arrays are mutable buffers; to settle the claim that the
caller's `X` is never mutated in place, the methods are re-traced over an
explicit heap of untyped matrices.  `X` enters by reference; every NumPy
operation of the traced code either allocates a fresh buffer
(`np.copy`, `np.concatenate`, `np.dot`, `np.zeros`, `np.exp`, …) or writes
into a buffer (`y_one_hot[i, j] = 1` inside `one_hot`).  External
collaborators (`np.linalg.inv`, the optimizer, `exp`) are passed in as pure
value functions: they never receive the reference to `X`.
-/

/-- Untyped matrix: a NumPy 2-D array as a list of rows. -/
abbrev UMat (α : Type) := List (List α)

/-- Heap of array buffers, addressed by allocation index. -/
abbrev Heap (α : Type) := List (UMat α)

/-- Read the buffer a reference points to. -/
def readH {α : Type} (h : Heap α) (r : ℕ) : UMat α := h.getD r []

/-- Allocate a fresh buffer, returning the new heap and the new reference. -/
def allocH {α : Type} (h : Heap α) (m : UMat α) : Heap α × ℕ := (h ++ [m], h.length)

/-- Overwrite the buffer a reference points to. -/
def writeH {α : Type} (h : Heap α) (r : ℕ) (m : UMat α) : Heap α := h.set r m

variable {α : Type} [Field α] [LinearOrder α]

/-- Prepend the constant-1 bias column to every row
(`np.concatenate([np.ones((n, 1)), A], axis=1)`). -/
def prependOnesL (m : UMat α) : UMat α := m.map fun r => 1 :: r

/-- The `A = np.copy(X); if self.add_bias: A = np.concatenate(...)` block:
copy the buffer of `X`, then (optionally) allocate the augmented buffer. -/
def copyAugmentH (b : Bool) (h : Heap α) (rX : ℕ) : Heap α × ℕ :=
  let p := allocH h (readH h rX)
  if b then allocH p.1 (prependOnesL (readH p.1 p.2)) else p

/-- Dot product of two rows. -/
def dotL (u v : List α) : α := (List.zipWith (fun a b => a * b) u v).sum

/-- `np.dot` on 2-D lists of rows. -/
def matMulL (A B : UMat α) : UMat α := A.map fun r => B.transpose.map fun c => dotL r c

/-- Elementwise matrix subtraction. -/
def subL (A B : UMat α) : UMat α := List.zipWith (List.zipWith fun a b => a - b) A B

/-- Elementwise division of a matrix by a scalar. -/
def divL (m : UMat α) (c : α) : UMat α := m.map fun r => r.map fun v => v / c

/-- Column count, `m.shape[1]`. -/
def colsL (m : UMat α) : ℕ := (m.headD []).length

/-- `np.zeros((p, q))`. -/
def zerosL (p q : ℕ) : UMat α := List.replicate p (List.replicate q (0 : α))

/-- `np.max` over one (nonempty) row. -/
def rowMaxL (r : List α) : α := r.foldr max (r.headD 0)

/-- Row-level `softmax`, parametric in the external `exp` primitive. -/
def softmaxL (expf : α → α) (m : UMat α) : UMat α :=
  m.map fun r =>
    r.map fun x =>
      expf (x - rowMaxL r) / ((r.map fun z => expf (z - rowMaxL r)).sum + 1 / 10 ^ 8)

/-- `np.argmax` over one row: index of the first maximal entry. -/
def argmaxIdxL : List α → ℕ
  | [] => 0
  | x :: xs =>
    let r := argmaxIdxL xs
    if x < xs.getD r x then r + 1 else 0

/-- Write value `v` at position `(i, j)` of an untyped matrix. -/
def setEntryL (m : UMat α) (i j : ℕ) (v : α) : UMat α :=
  m.set i ((m.getD i []).set j v)

/-- Heap trace of `one_hot(y)`: allocate `np.zeros(y.shape)`, then write a
`1` into row `i` at `y.argmax(axis=1)[i]`, for each row index `i`. -/
def one_hotH (h : Heap α) (ry : ℕ) : Heap α × ℕ :=
  let y := readH h ry
  let p := allocH h (zerosL y.length (colsL y))
  let labels := y.map argmaxIdxL
  let h2 := (List.range y.length).foldl
    (fun hh i => writeH hh p.2 (setEntryL (readH hh p.2) i (labels.getD i 0) 1)) p.1
  (h2, p.2)

namespace LinearRegression

/-- `gradient` over untyped matrices (passed to the optimizer by `fit`). -/
def gradientL (X y w : UMat α) : UMat α :=
  divL (matMulL X.transpose (subL (matMulL X w) y)) (X.length : α)

/-- Heap trace of `LinearRegression.predict`. -/
def predictH (b : Bool) (selfW : Option (UMat α)) (h : Heap α) (rX : ℕ)
    (w : Option (UMat α)) : Heap α × Except PyError (UMat α) :=
  match selfW with
  | none => (h, .error .assertionError)
  | some sw =>
    let p := copyAugmentH b h rX
    match w with
    | some ww =>
      let q := allocH p.1 (matMulL (readH p.1 p.2) ww)
      (q.1, .ok (readH q.1 q.2))
    | none =>
      let q := allocH p.1 (matMulL (readH p.1 p.2) sw)
      (q.1, .ok (readH q.1 q.2))

/-- Heap trace of `LinearRegression.fit`; `inv` is the external
`np.linalg.inv` primitive and `optRun` the external optimizer's `run`,
both pure value functions.  Returns the final heap and the new `self.w`. -/
def fitH (b : Bool) (selfW : Option (UMat α)) (inv : UMat α → UMat α)
    (h : Heap α) (rX : ℕ) (y : UMat α) (analytic : Bool)
    (optRun : Option ((UMat α → UMat α → UMat α → UMat α) →
      UMat α → UMat α → UMat α → UMat α × List (UMat α))) :
    Heap α × Option (UMat α) :=
  let p := copyAugmentH b h rX
  if analytic then
    let A := readH p.1 p.2
    let q1 := allocH p.1 (matMulL A.transpose A)
    let q2 := allocH q1.1 (inv (readH q1.1 q1.2))
    let q3 := allocH q2.1 (matMulL (readH q2.1 q2.2) A.transpose)
    let q4 := allocH q3.1 (matMulL (readH q3.1 q3.2) y)
    (q4.1, some (readH q4.1 q4.2))
  else
    match optRun with
    | none => (p.1, selfW)
    | some run =>
      let q0 := allocH p.1 (zerosL (colsL (readH p.1 p.2)) 1)
      let res := run gradientL (readH q0.1 p.2) y (readH q0.1 q0.2)
      let qf := allocH q0.1 res.1
      (qf.1, some (readH qf.1 qf.2))

end LinearRegression

namespace LogisticRegression

/-- Logistic `gradient` over untyped matrices, parametric in `exp`. -/
def gradientL (expf : α → α) (X y w : UMat α) : UMat α :=
  divL (matMulL X.transpose (subL (softmaxL expf (matMulL X w)) y)) (y.length : α)

/-- Heap trace of `LogisticRegression.fit`. -/
def fitH (expf : α → α) (b : Bool) (h : Heap α) (rX : ℕ) (y : UMat α)
    (optRun : (UMat α → UMat α → UMat α → UMat α) →
      UMat α → UMat α → UMat α → UMat α × List (UMat α)) :
    Heap α × Option (UMat α) :=
  let p := copyAugmentH b h rX
  let q0 := allocH p.1 (zerosL (colsL (readH p.1 p.2)) (colsL y))
  let res := optRun (gradientL expf) (readH q0.1 p.2) y (readH q0.1 q0.2)
  let qf := allocH q0.1 res.1
  (qf.1, some (readH qf.1 qf.2))

/-- Heap trace of `LogisticRegression.predict`. -/
def predictH (expf : α → α) (b : Bool) (selfW : Option (UMat α)) (h : Heap α)
    (rX : ℕ) (w : Option (UMat α)) : Heap α × Except PyError (UMat α) :=
  let p := copyAugmentH b h rX
  match w with
  | some ww =>
    let z := allocH p.1 (matMulL (readH p.1 p.2) ww)
    let s := allocH z.1 (softmaxL expf (readH z.1 z.2))
    let o := one_hotH s.1 s.2
    (o.1, .ok (readH o.1 o.2))
  | none =>
    match selfW with
    | none => (p.1, .error .attributeError)
    | some sw =>
      let z := allocH p.1 (matMulL (readH p.1 p.2) sw)
      let s := allocH z.1 (softmaxL expf (readH z.1 z.2))
      let o := one_hotH s.1 s.2
      (o.1, .ok (readH o.1 o.2))

end LogisticRegression

/-- `ExtendsH h0 h`: heap `h` extends `h0` — it is at least as long and
agrees with `h0` on every reference valid in `h0`.  Every traced method
sends the pre-call heap to an extension of it, which is exactly the claim
that the caller's buffers (in particular `X`) are never mutated. -/
def ExtendsH {α : Type} (h0 h : Heap α) : Prop :=
  h0.length ≤ h.length ∧ ∀ r < h0.length, readH h r = readH h0 r

/-!
Concrete data used by closed instances of the theorems below.
-/

/-- A one-buffer heap holding the matrix `[[1]]`. -/
def h0Q : Heap ℚ := [[[1]]]

/-- The matrix `[[1], [2], [3]]`. -/
def X3 : Matrix (Fin 3) (Fin 1) ℚ := Matrix.of ![![1], ![2], ![3]]

/-- The target `[[2], [4], [6]]`. -/
def y3 : Matrix (Fin 3) (Fin 1) ℚ := Matrix.of ![![2], ![4], ![6]]

/-- The weight vector `[0, 2]` (intercept 0, slope 2). -/
def wStar : Matrix (Fin 2) (Fin 1) ℚ := Matrix.of ![![0], ![2]]

/-- The matrix `[[4]]`. -/
def X4 : Matrix (Fin 1) (Fin 1) ℚ := Matrix.of ![![4]]

/-- The matrix `[[1]]`. -/
def X1 : Matrix (Fin 1) (Fin 1) ℚ := Matrix.of ![![1]]

/-- The target `[[1]]`. -/
def y1 : Matrix (Fin 1) (Fin 1) ℚ := Matrix.of ![![1]]

/-- An optimizer whose `run` raises. -/
def badOpt : Optimizer 1 2 1 ℚ := ⟨fun _ _ _ _ => .error .runtimeError⟩

/-- A trivial optimizer: returns its initial weights, with a one-snapshot
history. -/
def okOptQ : Optimizer 1 2 1 ℚ := ⟨fun _ _ _ w0 => .ok (w0, [w0])⟩

/-- The trivial optimizer over `ℝ`. -/
def okOptR : Optimizer 1 2 1 ℝ := ⟨fun _ _ _ w0 => .ok (w0, [w0])⟩

/-- A concrete `1 × 1` real feature matrix. -/
def XR : Matrix (Fin 1) (Fin 1) ℝ := 0

/-- A concrete `1 × 1` real target matrix. -/
def yR : Matrix (Fin 1) (Fin 1) ℝ := 0

/-- A row with a tie: `[[1/2, 1/2]]`. -/
def Ytie : Matrix (Fin 1) (Fin 2) ℚ := Matrix.of ![![1/2, 1/2]]

/-!
Theorems.
-/

/-- C1 (amended): calling `predict` on a never-fitted instance without an
override weight matrix fails rather than returning a value, but the error
kinds differ: `LinearRegression.predict` fails its `assert self.w is not
None` precondition, while `LogisticRegression.predict` raises an
attribute-access error because `__init__` never assigns `self.w`. -/
theorem C1_predict_before_fit {α : Type} [Field α] {n f c : ℕ} (b : Bool)
    (Xl : Matrix (Fin n) (Fin f) α) (Xg : Matrix (Fin n) (Fin f) ℝ) :
    LinearRegression.predict b none Xl none = .error .assertionError ∧
    @LogisticRegression.predict n f c b none Xg none = .error .attributeError :=
  ⟨rfl, rfl⟩

/-- C1 counterexample: on a never-fitted `LogisticRegression`, `predict`
without an override does not fail with the assertion-style error the claim
states; it raises an attribute error instead. -/
theorem C1_logistic_error_kind_cex :
    @LogisticRegression.predict 1 1 0 true none XR none = .error .attributeError ∧
    @LogisticRegression.predict 1 1 0 true none XR none ≠ .error .assertionError := by
  refine ⟨rfl, fun hcon => ?_⟩
  injection hcon with h
  exact absurd h (by decide)

/-- C2 (amended): `w` is `None` from construction until a `fit` call
assigns it.  For `LinearRegression` the analytic path assigns `w` only on
success, so a singular-matrix failure leaves `w` unchanged (still `None` on
a previously unfitted instance); but the gradient path of
`LinearRegression.fit` — and every `LogisticRegression.fit` — assigns
`w = np.zeros(...)` before the optimizer runs, so a fit call whose
optimizer `run` raises leaves `w` equal to the zero matrix, not `None`. -/
theorem C2_w_none_until_assignment {α : Type} [Field α] [DecidableEq α]
    {n f c p : ℕ} (b : Bool)
    (selfW : Option (Matrix (Fin (biasDim b f)) (Fin 1) α))
    (X : Matrix (Fin n) (Fin f) α) (y : Matrix (Fin n) (Fin 1) α)
    (oc : Option (Optimizer n (biasDim b f) 1 α))
    (opt : Optimizer n (biasDim b f) 1 α)
    (Xg : Matrix (Fin n) (Fin f) ℝ) (yg : Matrix (Fin n) (Fin (c + 1)) ℝ)
    (optg : Optimizer n (biasDim b f) (c + 1) ℝ) (e1 e2 e3 : PyError)
    (h1 : LinearRegression.analytic_fit (augment b X) y = .error e1)
    (h2 : opt.run LinearRegression.gradient (augment b X) y 0 = .error e2)
    (h3 : optg.run LogisticRegression.gradient (augment b Xg) yg 0 = .error e3) :
    (LinearRegression.initW : Option (Matrix (Fin p) (Fin 1) α)) = none ∧
    LinearRegression.fit b selfW X y true oc = (.error e1, selfW) ∧
    LinearRegression.fit b selfW X y false (some opt) = (.error e2, some 0) ∧
    LogisticRegression.fit b Xg yg optg = (.error e3, some 0) := by
  refine ⟨rfl, ?_, ?_, ?_⟩
  · have hu : LinearRegression.fit b selfW X y true oc =
        (match LinearRegression.analytic_fit (augment b X) y with
         | .error e => (.error e, selfW)
         | .ok w => (.ok (.weights w), some w)) := rfl
    rw [hu, h1]
  · have hu : LinearRegression.fit b selfW X y false (some opt) =
        (match opt.run LinearRegression.gradient (augment b X) y 0 with
         | .error e => (.error e, some 0)
         | .ok (wf, hist) => (.ok (.history hist), some wf)) := rfl
    rw [hu, h2]
  · have hu : LogisticRegression.fit b Xg yg optg =
        (match optg.run LogisticRegression.gradient (augment b Xg) yg 0 with
         | .error e => (.error e, some 0)
         | .ok (wf, hist) => (.ok hist, some wf)) := rfl
    rw [hu, h3]

/-- On `X = [[1]]` with bias augmentation, `XᵀX = [[1, 1], [1, 1]]` is
singular, so the analytic fit raises `LinAlgError`. -/
theorem analytic_fit_X1_singular :
    LinearRegression.analytic_fit (augment true X1) y1 = .error .linAlgError := by
  have hXTX : (augment true X1)ᵀ * augment true X1 =
      Matrix.of ![![1, 1], ![1, 1]] := by
    funext i j
    fin_cases i <;> fin_cases j <;>
      simp [Matrix.mul_apply, Fin.sum_univ_succ, augment, X1, Matrix.vecHead,
        Matrix.vecTail]
  have hdet : ((augment true X1)ᵀ * augment true X1).det = 0 := by
    rw [hXTX, Matrix.det_fin_two_of]
    norm_num
  simp [LinearRegression.analytic_fit, np_linalg_inv, hdet]
  rfl

/-- C2 witness: the amended claim instantiated on concrete data — the
analytic path on `X = [[1]]` (singular `XᵀX` after bias augmentation)
leaves `w` as `None`, while a failing optimizer run leaves `w = [[0], [0]]`. -/
theorem C2_w_none_until_assignment_witness :
    (LinearRegression.initW : Option (Matrix (Fin 2) (Fin 1) ℚ)) = none ∧
    LinearRegression.fit true none X1 y1 true none = (.error .linAlgError, none) ∧
    LinearRegression.fit true none X1 y1 false (some badOpt) =
      (.error .runtimeError, some 0) ∧
    LogisticRegression.fit true XR yR ⟨fun _ _ _ _ => .error .runtimeError⟩ =
      (.error .runtimeError, some 0) :=
  C2_w_none_until_assignment true none X1 y1 none badOpt XR yR
    ⟨fun _ _ _ _ => .error .runtimeError⟩ .linAlgError .runtimeError .runtimeError
    analytic_fit_X1_singular rfl rfl

/-- C2 counterexample: the claim as stated is false — on a previously
unfitted `LinearRegression`, a `fit` call that fails (the optimizer's `run`
raises) does not leave `w` as `None`: `w` has been set to the zero matrix. -/
theorem C2_failed_fit_sets_w_cex :
    (LinearRegression.fit true none X1 y1 false (some badOpt)).1 =
      .error .runtimeError ∧
    (LinearRegression.fit true none X1 y1 false (some badOpt)).2 = some 0 ∧
    some (0 : Matrix (Fin 2) (Fin 1) ℚ) ≠ none :=
  ⟨rfl, rfl, Option.some_ne_none _⟩

/-- Bias augmentation of `X3 = [[1], [2], [3]]`. -/
theorem augment_X3 : augment true X3 = Matrix.of ![![1, 1], ![1, 2], ![1, 3]] := by
  funext i j
  fin_cases i <;> fin_cases j <;>
    simp [augment, X3, Matrix.vecHead, Matrix.vecTail]

/-- The analytic fit on the bias-augmented `X3` solves the normal equations,
giving intercept `0` and slope `2`. -/
theorem analytic_fit_X3 :
    LinearRegression.analytic_fit (augment true X3) y3 = .ok wStar := by
  have h1 : (augment true X3)ᵀ * augment true X3 = Matrix.of ![![3, 6], ![6, 14]] := by
    rw [augment_X3]
    funext i j
    fin_cases i <;> fin_cases j <;>
      simp [Matrix.mul_apply, Fin.sum_univ_succ, Matrix.vecHead, Matrix.vecTail] <;>
      norm_num
  have hdet : (Matrix.of ![![(3 : ℚ), 6], ![6, 14]]).det = 6 := by
    rw [Matrix.det_fin_two_of]
    norm_num
  have hadj : (Matrix.of ![![(3 : ℚ), 6], ![6, 14]]).adjugate =
      Matrix.of ![![14, -6], ![-6, 3]] := by
    rw [Matrix.adjugate_fin_two_of]
  have hinv : np_linalg_inv (Matrix.of ![![(3 : ℚ), 6], ![6, 14]]) =
      .ok ((6 : ℚ)⁻¹ • Matrix.of ![![14, -6], ![-6, 3]]) := by
    simp [np_linalg_inv, hdet, hadj]
  have hrun : LinearRegression.analytic_fit (augment true X3) y3 =
      Except.bind (np_linalg_inv ((augment true X3)ᵀ * augment true X3))
        (fun XTX_inv => Except.ok (XTX_inv * (augment true X3)ᵀ * y3)) := rfl
  rw [hrun, h1, hinv]
  simp only [Except.bind]
  rw [augment_X3]
  congr 1
  funext i j
  fin_cases i <;> fin_cases j <;>
    simp [Matrix.mul_apply, Fin.sum_univ_succ, Matrix.smul_apply, y3, wStar,
      Matrix.vecHead, Matrix.vecTail, Matrix.vecMul, Matrix.dotProduct,
      Matrix.transpose_apply] <;>
    norm_num

/-- C4 (confirmed): fitting `LinearRegression` with `add_bias=True` and
`analytic_fit=True` on `X = [[1], [2], [3]]`, `y = [[2], [4], [6]]` yields
the normal-equations weights `[0, 2]` (returned and stored), and a
subsequent `predict` on `X = [[4]]` returns `[[8]]`. -/
theorem C4_analytic_round_trip :
    LinearRegression.fit true none X3 y3 true none =
      (.ok (.weights wStar), some wStar) ∧
    LinearRegression.predict true (some wStar) X4 none =
      .ok (Matrix.of ![![8]]) := by
  constructor
  · simp [LinearRegression.fit, analytic_fit_X3]
  · have hu : LinearRegression.predict true (some wStar) X4 none =
        Except.ok ((id (augment true X4) : Matrix (Fin 1) (Fin 2) ℚ) * wStar) := rfl
    rw [hu]
    congr 1
    funext i j
    fin_cases i
    fin_cases j
    simp [Matrix.mul_apply, Fin.sum_univ_succ, augment, biasDim, X4, wStar,
      Matrix.vecHead, Matrix.vecTail]
    norm_num

/-- C5 (confirmed): every gradient-based `fit` (linear with
`analytic_fit=False`, and every logistic `fit`) returns the optimizer's
`w_history` to the caller, not the final weight matrix, while the final
weight matrix returned by the optimizer's `run` is stored as `self.w`. -/
theorem C5_gradient_fit_returns_history {α : Type} [Field α] [DecidableEq α]
    {n f c : ℕ} (b : Bool)
    (selfW : Option (Matrix (Fin (biasDim b f)) (Fin 1) α))
    (X : Matrix (Fin n) (Fin f) α) (y : Matrix (Fin n) (Fin 1) α)
    (opt : Optimizer n (biasDim b f) 1 α)
    (wf : Matrix (Fin (biasDim b f)) (Fin 1) α)
    (hist : List (Matrix (Fin (biasDim b f)) (Fin 1) α))
    (Xg : Matrix (Fin n) (Fin f) ℝ) (yg : Matrix (Fin n) (Fin (c + 1)) ℝ)
    (optg : Optimizer n (biasDim b f) (c + 1) ℝ)
    (wfg : Matrix (Fin (biasDim b f)) (Fin (c + 1)) ℝ)
    (histg : List (Matrix (Fin (biasDim b f)) (Fin (c + 1)) ℝ))
    (hrun : opt.run LinearRegression.gradient (augment b X) y 0 = .ok (wf, hist))
    (hrung : optg.run LogisticRegression.gradient (augment b Xg) yg 0 =
      .ok (wfg, histg)) :
    LinearRegression.fit b selfW X y false (some opt) =
      (.ok (.history hist), some wf) ∧
    LogisticRegression.fit b Xg yg optg = (.ok histg, some wfg) := by
  constructor
  · have hu : LinearRegression.fit b selfW X y false (some opt) =
        (match opt.run LinearRegression.gradient (augment b X) y 0 with
         | .error e => (.error e, some 0)
         | .ok (wf, hist) => (.ok (.history hist), some wf)) := rfl
    rw [hu, hrun]
  · have hu : LogisticRegression.fit b Xg yg optg =
        (match optg.run LogisticRegression.gradient (augment b Xg) yg 0 with
         | .error e => (.error e, some 0)
         | .ok (wf, hist) => (.ok hist, some wf)) := rfl
    rw [hu, hrung]

/-- C5 witness: with a trivial optimizer that returns its initial weights
and a one-snapshot history, both fits return the history and store the
final weights. -/
theorem C5_gradient_fit_returns_history_witness :
    LinearRegression.fit true none X1 y1 false (some okOptQ) =
      (.ok (.history [0]), some 0) ∧
    LogisticRegression.fit true XR yR okOptR = (.ok [0], some 0) :=
  C5_gradient_fit_returns_history true none X1 y1 okOptQ 0 [0] XR yR okOptR 0 [0]
    rfl rfl

/-- C6 (confirmed): `LinearRegression.fit` with `analytic_fit=False` and
`optimizer_class=None` fails immediately with the assertion error; no
optimizer is constructed or run, and `self.w` is left untouched. -/
theorem C6_fit_requires_optimizer {α : Type} [Field α] [DecidableEq α] {n f : ℕ}
    (b : Bool) (selfW : Option (Matrix (Fin (biasDim b f)) (Fin 1) α))
    (X : Matrix (Fin n) (Fin f) α) (y : Matrix (Fin n) (Fin 1) α) :
    LinearRegression.fit b selfW X y false none = (.error .assertionError, selfW) :=
  rfl

/-- C10 (confirmed): `LogisticRegression.predict` with an explicit override
weight matrix on a never-fitted instance succeeds with no precondition
check, returning `one_hot(softmax(A·w))` for the bias-augmented `A`;
`LinearRegression.predict` instead asserts the stored weight is set even
when an override is supplied. -/
theorem C10_override_predict_contrast {n f c : ℕ} (b : Bool)
    (X : Matrix (Fin n) (Fin f) ℝ)
    (w : Matrix (Fin (biasDim b f)) (Fin (c + 1)) ℝ)
    {α : Type} [Field α] (Xl : Matrix (Fin n) (Fin f) α)
    (wl : Matrix (Fin (biasDim b f)) (Fin 1) α) :
    LogisticRegression.predict b none X (some w) =
      .ok (one_hot (softmax (augment b X * w))) ∧
    LinearRegression.predict b none Xl (some wl) = .error .assertionError :=
  ⟨rfl, rfl⟩

/-- The index `npArgmax v` attains the row maximum. -/
theorem npArgmax_isMax {m : ℕ} {α : Type} [LinearOrder α] (v : Fin (m + 1) → α)
    (k : Fin (m + 1)) : v k ≤ v (npArgmax v) := by
  have h : npArgmax v ∈ Finset.univ.filter fun j => ∀ k, v k ≤ v j :=
    Finset.min'_mem _ _
  exact (Finset.mem_filter.mp h).2 k

/-- `npArgmax v` is the first maximizer: it is at most any other maximizer. -/
theorem npArgmax_first {m : ℕ} {α : Type} [LinearOrder α] (v : Fin (m + 1) → α)
    (k : Fin (m + 1)) (hk : ∀ l, v l ≤ v k) : npArgmax v ≤ k :=
  Finset.min'_le _ _ (Finset.mem_filter.mpr ⟨Finset.mem_univ _, hk⟩)

/-- C8 (confirmed): each row of `one_hot(Y)` (shape preserved by the type)
has exactly one entry equal to `1` and all others `0`, located at the
argmax of that row; the argmax attains the row maximum and, on ties, is the
first (lowest) index attaining it. -/
theorem C8_one_hot_spec {n m : ℕ} {α : Type} [LinearOrder α] [Zero α] [One α]
    [NeZero (1 : α)] (y : Matrix (Fin n) (Fin (m + 1)) α) (i : Fin n) :
    (Finset.univ.filter fun j => one_hot y i j = 1).card = 1 ∧
    one_hot y i (npArgmax (y i)) = 1 ∧
    (∀ j, j ≠ npArgmax (y i) → one_hot y i j = 0) ∧
    (∀ k, y i k ≤ y i (npArgmax (y i))) ∧
    (∀ k, (∀ l, y i l ≤ y i k) → npArgmax (y i) ≤ k) := by
  refine ⟨?_, ?_, ?_, fun k => npArgmax_isMax (y i) k,
    fun k hk => npArgmax_first (y i) k hk⟩
  · have hset : (Finset.univ.filter fun j => one_hot y i j = 1) =
        {npArgmax (y i)} := by
      ext j
      by_cases h : j = npArgmax (y i) <;>
        simp [one_hot, h, (NeZero.ne (1 : α)).symm]
    rw [hset, Finset.card_singleton]
  · simp [one_hot]
  · intro j hj
    simp [one_hot, hj]

/-- C8 witness: the tie row `[[1/2, 1/2]]`. -/
theorem C8_one_hot_spec_witness :
    (Finset.univ.filter fun j => one_hot Ytie 0 j = 1).card = 1 ∧
    one_hot Ytie 0 (npArgmax (Ytie 0)) = 1 ∧
    (∀ j, j ≠ npArgmax (Ytie 0) → one_hot Ytie 0 j = 0) ∧
    (∀ k, Ytie 0 k ≤ Ytie 0 (npArgmax (Ytie 0))) ∧
    (∀ k, (∀ l, Ytie 0 l ≤ Ytie 0 k) → npArgmax (Ytie 0) ≤ k) :=
  C8_one_hot_spec Ytie 0

/-- C9 (confirmed): `softmax` is row-wise with the row maximum subtracted
before exponentiation and an additive `1e-8` in the denominator (shape
preserved by the type); consequently each row sums to `S / (S + 1e-8)`
where `S` is the row sum of exponentials, which is strictly less than 1. -/
theorem C9_softmax_row_sum {n m : ℕ} (X : Matrix (Fin n) (Fin (m + 1)) ℝ)
    (i : Fin n) :
    (∀ j, softmax X i j = Real.exp (X i j - rowMax X i) /
      ((∑ k, Real.exp (X i k - rowMax X i)) + softeps)) ∧
    softeps = 1 / 10 ^ 8 ∧
    (∑ j, softmax X i j) = (∑ j, Real.exp (X i j - rowMax X i)) /
      ((∑ j, Real.exp (X i j - rowMax X i)) + softeps) ∧
    (∑ j, softmax X i j) < 1 := by
  have hpos : 0 < ∑ j, Real.exp (X i j - rowMax X i) :=
    Finset.sum_pos (fun j _ => Real.exp_pos _) Finset.univ_nonempty
  have heps : (0 : ℝ) < softeps := by norm_num [softeps]
  have hsum : (∑ j, softmax X i j) = (∑ j, Real.exp (X i j - rowMax X i)) /
      ((∑ j, Real.exp (X i j - rowMax X i)) + softeps) := by
    rw [Finset.sum_div]
    rfl
  refine ⟨fun j => rfl, rfl, hsum, ?_⟩
  rw [hsum, div_lt_one (by positivity)]
  exact lt_add_of_pos_right _ heps

/-- Multiplying by a standard basis matrix selects one column of `X`. -/
theorem mul_stdBasisMatrix_apply {n p q : ℕ} (X : Matrix (Fin n) (Fin p) ℝ)
    (j : Fin p) (k : Fin q) (i : Fin n) (u : Fin q) :
    (X * Matrix.stdBasisMatrix j k (1 : ℝ)) i u = if u = k then X i j else 0 := by
  rw [Matrix.mul_apply]
  by_cases h : u = k
  · subst h
    have hsum : (∑ l, X i l * Matrix.stdBasisMatrix j u (1 : ℝ) l u) =
        X i j * Matrix.stdBasisMatrix j u (1 : ℝ) j u :=
      Finset.sum_eq_single j
        (fun l _ hl => by
          rw [Matrix.StdBasisMatrix.apply_of_ne _ _ _ _ _ fun hc => hl hc.1.symm,
            mul_zero])
        (fun hj => absurd (Finset.mem_univ j) hj)
    rw [hsum, Matrix.StdBasisMatrix.apply_same, mul_one, if_pos rfl]
  · rw [if_neg h]
    apply Finset.sum_eq_zero
    intro l _
    rw [Matrix.StdBasisMatrix.apply_of_ne _ _ _ _ _ fun hc => h hc.2.symm, mul_zero]

/-- C3 (confirmed): `LinearRegression.gradient` equals `Xᵀ(Xw − y)/n`
entrywise, and `Xᵀ(Xw − y)` at `(j, k)` is exactly the analytic derivative
of `cost_fn = 0.5·Σ(y − Xw)²` with respect to the weight entry `w j k` —
so the gradient is that derivative divided by `n`. -/
theorem C3_gradient_is_cost_derivative {n p q : ℕ}
    (X : Matrix (Fin n) (Fin p) ℝ) (y : Matrix (Fin n) (Fin q) ℝ)
    (w : Matrix (Fin p) (Fin q) ℝ) (j : Fin p) (k : Fin q) :
    LinearRegression.gradient X y w j k = (Xᵀ * (X * w - y)) j k / (n : ℝ) ∧
    HasDerivAt
      (fun t : ℝ =>
        LinearRegression.cost_fn X y (w + t • Matrix.stdBasisMatrix j k 1))
      ((Xᵀ * (X * w - y)) j k) 0 := by
  refine ⟨rfl, ?_⟩
  have hc : ∀ (t : ℝ) (i : Fin n) (u : Fin q),
      (X * (w + t • Matrix.stdBasisMatrix j k (1 : ℝ))) i u =
        (X * w) i u + t * (if u = k then X i j else 0) := by
    intro t i u
    rw [Matrix.mul_add, Matrix.add_apply, Matrix.mul_smul, Matrix.smul_apply,
      smul_eq_mul, mul_stdBasisMatrix_apply]
  have hfun : (fun t : ℝ =>
      LinearRegression.cost_fn X y (w + t • Matrix.stdBasisMatrix j k 1)) =
      fun t => (1 / 2 : ℝ) *
        ∑ i, ∑ u, (y i u - ((X * w) i u + t * (if u = k then X i j else 0))) ^ 2 := by
    funext t
    simp only [LinearRegression.cost_fn, hc]
  rw [hfun]
  have base : ∀ (i : Fin n) (u : Fin q), HasDerivAt
      (fun t : ℝ => (y i u - ((X * w) i u + t * (if u = k then X i j else 0))) ^ 2)
      (2 * (y i u - (X * w) i u) * (-(if u = k then X i j else 0))) 0 := by
    intro i u
    have h1 : HasDerivAt (fun t : ℝ => t * (if u = k then X i j else 0))
        (if u = k then X i j else 0) 0 := hasDerivAt_mul_const _
    have h2 := h1.const_add ((X * w) i u)
    have h3 := h2.const_sub (y i u)
    have h4 := h3.pow 2
    convert h4 using 1
    norm_num
  have hsum : HasDerivAt
      (fun t : ℝ =>
        ∑ i, ∑ u, (y i u - ((X * w) i u + t * (if u = k then X i j else 0))) ^ 2)
      (∑ i, ∑ u, 2 * (y i u - (X * w) i u) * (-(if u = k then X i j else 0))) 0 :=
    HasDerivAt.sum fun i _ => HasDerivAt.sum fun u _ => base i u
  have hmain := hsum.const_mul (1 / 2 : ℝ)
  have hval : (Xᵀ * (X * w - y)) j k =
      (1 / 2 : ℝ) *
        ∑ i, ∑ u, 2 * (y i u - (X * w) i u) * (-(if u = k then X i j else 0)) := by
    rw [Matrix.mul_apply, Finset.mul_sum]
    apply Finset.sum_congr rfl
    intro i _
    have hite : ∀ u : Fin q,
        2 * (y i u - (X * w) i u) * (-(if u = k then X i j else 0)) =
          if u = k then 2 * (y i u - (X * w) i u) * (-(X i j)) else 0 := by
      intro u
      by_cases h : u = k <;> simp [h]
    rw [Finset.sum_congr rfl fun u _ => hite u, Finset.sum_ite_eq' Finset.univ k
      fun u => 2 * (y i u - (X * w) i u) * (-(X i j))]
    simp [Matrix.transpose_apply, Matrix.sub_apply]
    ring
  rw [hval]
  exact hmain

/-- Allocation appends one buffer. -/
theorem alloc_length {α : Type} (h : Heap α) (m : UMat α) :
    (allocH h m).1.length = h.length + 1 := by
  simp [allocH]

/-- Reading a valid reference is unaffected by an allocation. -/
theorem readH_alloc {α : Type} (h : Heap α) (m : UMat α) {r : ℕ}
    (hr : r < h.length) : readH (allocH h m).1 r = readH h r := by
  simp [readH, allocH, List.getD_eq_getElem?_getD, List.getElem?_append_left hr]

/-- Writing preserves the heap length. -/
theorem write_length {α : Type} (h : Heap α) (s : ℕ) (m : UMat α) :
    (writeH h s m).length = h.length := by
  simp [writeH]

/-- Reading a reference is unaffected by a write to a different reference. -/
theorem readH_write_ne {α : Type} (h : Heap α) (s : ℕ) (m : UMat α) {r : ℕ}
    (hne : r ≠ s) : readH (writeH h s m) r = readH h r := by
  simp [readH, writeH, List.getD_eq_getElem?_getD, List.getElem?_set_ne (Ne.symm hne)]

/-- Every heap extends itself. -/
theorem extendsH_refl {α : Type} (h : Heap α) : ExtendsH h h :=
  ⟨le_refl _, fun _ _ => rfl⟩

/-- Allocation preserves heap extension. -/
theorem extendsH_alloc {α : Type} {h0 h : Heap α} (m : UMat α)
    (he : ExtendsH h0 h) : ExtendsH h0 (allocH h m).1 := by
  constructor
  · rw [alloc_length]
    exact he.1.trans (Nat.le_succ _)
  · intro r hr
    rw [readH_alloc h m (lt_of_lt_of_le hr he.1)]
    exact he.2 r hr

/-- Writing to a reference outside the original heap preserves extension. -/
theorem extendsH_write {α : Type} {h0 h : Heap α} {s : ℕ} (m : UMat α)
    (he : ExtendsH h0 h) (hs : h0.length ≤ s) : ExtendsH h0 (writeH h s m) := by
  constructor
  · rw [write_length]
    exact he.1
  · intro r hr
    rw [readH_write_ne h s m (Nat.ne_of_lt (lt_of_lt_of_le hr hs))]
    exact he.2 r hr

/-- A fold of writes to a fixed fresh reference preserves extension. -/
theorem extendsH_foldl_write {α : Type} {h0 : Heap α} {s : ℕ} (l : List ℕ)
    (f : Heap α → ℕ → UMat α) {h : Heap α} (he : ExtendsH h0 h)
    (hs : h0.length ≤ s) :
    ExtendsH h0 (l.foldl (fun hh i => writeH hh s (f hh i)) h) := by
  induction l generalizing h with
  | nil => exact he
  | cons a t ih =>
    rw [List.foldl_cons]
    exact ih (extendsH_write _ he hs)

/-- The copy-then-augment block only allocates. -/
theorem extendsH_copyAugment {α : Type} [Field α] [LinearOrder α] (b : Bool)
    (h : Heap α) (rX : ℕ) : ExtendsH h (copyAugmentH b h rX).1 := by
  cases b
  · exact extendsH_alloc _ (extendsH_refl h)
  · exact extendsH_alloc _ (extendsH_alloc _ (extendsH_refl h))

/-- `one_hot` allocates a zero matrix and writes only into it. -/
theorem extendsH_one_hotH {α : Type} [Field α] [LinearOrder α] {h0 h : Heap α}
    (ry : ℕ) (he : ExtendsH h0 h) : ExtendsH h0 (one_hotH h ry).1 :=
  extendsH_foldl_write _ _ (extendsH_alloc _ he) he.1

/-- `LinearRegression.predict` leaves every pre-existing buffer intact. -/
theorem linPredictH_extends {α : Type} [Field α] [LinearOrder α] (b : Bool)
    (selfW : Option (UMat α)) (h : Heap α) (rX : ℕ) (w : Option (UMat α)) :
    ExtendsH h (LinearRegression.predictH b selfW h rX w).1 := by
  cases selfW with
  | none => exact extendsH_refl h
  | some sw =>
    cases w with
    | some ww => exact extendsH_alloc _ (extendsH_copyAugment b h rX)
    | none => exact extendsH_alloc _ (extendsH_copyAugment b h rX)

/-- `LinearRegression.fit` leaves every pre-existing buffer intact. -/
theorem linFitH_extends {α : Type} [Field α] [LinearOrder α] (b : Bool)
    (selfW : Option (UMat α)) (inv : UMat α → UMat α) (h : Heap α) (rX : ℕ)
    (y : UMat α) (analytic : Bool)
    (optRun : Option ((UMat α → UMat α → UMat α → UMat α) →
      UMat α → UMat α → UMat α → UMat α × List (UMat α))) :
    ExtendsH h (LinearRegression.fitH b selfW inv h rX y analytic optRun).1 := by
  cases analytic
  · cases optRun with
    | none => exact extendsH_copyAugment b h rX
    | some run =>
      exact extendsH_alloc _ (extendsH_alloc _ (extendsH_copyAugment b h rX))
  · exact extendsH_alloc _ (extendsH_alloc _ (extendsH_alloc _
      (extendsH_alloc _ (extendsH_copyAugment b h rX))))

/-- `LogisticRegression.fit` leaves every pre-existing buffer intact. -/
theorem logFitH_extends {α : Type} [Field α] [LinearOrder α] (expf : α → α)
    (b : Bool) (h : Heap α) (rX : ℕ) (y : UMat α)
    (optRun : (UMat α → UMat α → UMat α → UMat α) →
      UMat α → UMat α → UMat α → UMat α × List (UMat α)) :
    ExtendsH h (LogisticRegression.fitH expf b h rX y optRun).1 :=
  extendsH_alloc _ (extendsH_alloc _ (extendsH_copyAugment b h rX))

/-- `LogisticRegression.predict` leaves every pre-existing buffer intact. -/
theorem logPredictH_extends {α : Type} [Field α] [LinearOrder α] (expf : α → α)
    (b : Bool) (selfW : Option (UMat α)) (h : Heap α) (rX : ℕ)
    (w : Option (UMat α)) :
    ExtendsH h (LogisticRegression.predictH expf b selfW h rX w).1 := by
  cases w with
  | some ww =>
    exact extendsH_one_hotH _ (extendsH_alloc _ (extendsH_alloc _
      (extendsH_copyAugment b h rX)))
  | none =>
    cases selfW with
    | none => exact extendsH_copyAugment b h rX
    | some sw =>
      exact extendsH_one_hotH _ (extendsH_alloc _ (extendsH_alloc _
        (extendsH_copyAugment b h rX)))

/-- C7 (confirmed): for every call to `fit` or `predict` on either model,
the caller's feature matrix `X` — passed by reference into the heap-level
trace — holds the same entries after the call as before: `X` is copied
before the bias column is prepended, every later operation allocates a
fresh buffer, and the only in-place writes (inside `one_hot`) target the
freshly allocated output. -/
theorem C7_X_never_mutated {α : Type} [Field α] [LinearOrder α] (h : Heap α)
    (rX : ℕ) (hrX : rX < h.length) :
    (∀ b selfW w,
      readH (LinearRegression.predictH b selfW h rX w).1 rX = readH h rX) ∧
    (∀ b selfW inv y analytic optRun,
      readH (LinearRegression.fitH b selfW inv h rX y analytic optRun).1 rX =
        readH h rX) ∧
    (∀ expf b y optRun,
      readH (LogisticRegression.fitH expf b h rX y optRun).1 rX = readH h rX) ∧
    (∀ expf b selfW w,
      readH (LogisticRegression.predictH expf b selfW h rX w).1 rX = readH h rX) :=
  ⟨fun b selfW w => (linPredictH_extends b selfW h rX w).2 rX hrX,
   fun b selfW inv y analytic optRun =>
     (linFitH_extends b selfW inv h rX y analytic optRun).2 rX hrX,
   fun expf b y optRun => (logFitH_extends expf b h rX y optRun).2 rX hrX,
   fun expf b selfW w => (logPredictH_extends expf b selfW h rX w).2 rX hrX⟩

/-- C7 witness: a concrete one-buffer heap holding `X = [[1]]`, traced
through all four methods with concrete collaborators. -/
theorem C7_X_never_mutated_witness :
    readH (LinearRegression.predictH true (some [[2], [2]]) h0Q 0 none).1 0 =
      readH h0Q 0 ∧
    readH (LinearRegression.fitH true none id h0Q 0 [[1]] true none).1 0 =
      readH h0Q 0 ∧
    readH (LogisticRegression.fitH id true h0Q 0 [[1]]
      (fun _ _ _ w0 => (w0, [w0]))).1 0 = readH h0Q 0 ∧
    readH (LogisticRegression.predictH id true none h0Q 0 (some [[2], [2]])).1 0 =
      readH h0Q 0 :=
  ⟨(C7_X_never_mutated h0Q 0 (by decide)).1 true (some [[2], [2]]) none,
   (C7_X_never_mutated h0Q 0 (by decide)).2.1 true none id [[1]] true none,
   (C7_X_never_mutated h0Q 0 (by decide)).2.2.1 id true [[1]]
     (fun _ _ _ w0 => (w0, [w0])),
   (C7_X_never_mutated h0Q 0 (by decide)).2.2.2 id true none (some [[2], [2]])⟩

end Models
